import Mathlib

/-!
Verification development for the Sentient-Social-Agent news pipeline
(`src/agent/agent_tools/news/news.py` and `src/agent/agent_tools/twitter/twitter.py`).

The Python pipeline is shallowly embedded: pure helpers become Lean
functions, the stateful posting loop becomes explicit state passing, and
the external collaborators (feed parser, LLM composer, Twitter transport)
become function parameters.  Timestamps and scores are modelled as exact
rationals (the Python code computes with floats; the field operations it
performs are modelled exactly, and the transcendental decay factor
`math.exp(-age/half_life)` is passed in as an explicit function parameter
`d`; the real-valued decay itself is modelled separately with `Real.exp`).
-/

set_option maxRecDepth 16000

namespace SSA

/-- An article record as produced by `News._parse_feed`.  `hid` is the
fingerprint (`_hash(eid)`, a 16-hex-character SHA-256 prefix of the entry
id); `published_ts` is the UTC POSIX timestamp (`published_ts` in the
dict), modelled as a rational. -/
structure Article where
  id : String
  hid : String
  title : String
  summary : String
  link : String
  source : String
  category : String
  published_ts : ℚ
  deriving Repr, DecidableEq

/-! ### Aggregator: `News._fetch_categories` (news.py lines 227-242) -/

/-- The dedup pass of `News._fetch_categories`: walk the fetched items in
order, keeping an item only when its fingerprint `hid` has not been seen
yet (`seen` plays the role of the Python `seen` set). -/
def dedupeByHid : List String → List Article → List Article
  | _, [] => []
  | seen, a :: rest =>
    if a.hid ∈ seen then dedupeByHid seen rest
    else a :: dedupeByHid (a.hid :: seen) rest

/-- The sort key of `News._fetch_categories`: descending `published_ts`
(`out.sort(key=lambda x: x["published_ts"], reverse=True)`). -/
def tsDesc (a b : Article) : Prop := b.published_ts ≤ a.published_ts

instance : DecidableRel tsDesc := fun a b =>
  inferInstanceAs (Decidable (b.published_ts ≤ a.published_ts))

instance : IsTotal Article tsDesc :=
  ⟨fun a b => (le_total b.published_ts a.published_ts).imp id id⟩

instance : IsTrans Article tsDesc :=
  ⟨fun _ _ _ hab hbc => le_trans hbc hab⟩

/-- The item-collection loop of `News._fetch_categories`: for each
category, the per-feed budget is `max(1, max_total // max(1, len(feeds) or 1))`
and each feed contributes the entries returned by the external
`feedparser`-based `_parse_feed` (modelled by the parameter `parse`,
taking the url, the category and the per-feed limit). -/
def collectItems (feedsOf : List (String × List String))
    (parse : String → String → Nat → List Article)
    (cats : List String) (maxTotal : Nat) : List Article :=
  cats.foldl (fun acc cat =>
    let feeds := (feedsOf.lookup cat).getD []
    let perFeed := max 1 (maxTotal / max 1 feeds.length)
    acc ++ feeds.foldl (fun acc2 url => acc2 ++ parse url cat perFeed) []) []

/-- `News._fetch_categories`: collect, dedupe by fingerprint (first
occurrence wins), sort descending by published timestamp (Python's
`list.sort` is modelled by a sort producing the same sortedness
contract). -/
def fetchCategories (feedsOf : List (String × List String))
    (parse : String → String → Nat → List Article)
    (cats : List String) (maxTotal : Nat) : List Article :=
  List.insertionSort tsDesc (dedupeByHid [] (collectItems feedsOf parse cats maxTotal))

/-! ### Ranker: `News._score_items` (news.py lines 254-301) -/

/-- Whitespace characters stripped by Python's `str.strip()` / matched by
the regex class chr-for-chr on ASCII input. -/
def isPyWS (c : Char) : Bool :=
  c = ' ' ∨ c = '\t' ∨ c = '\n' ∨ c = '\r' ∨ c = '\x0b' ∨ c = '\x0c'

/-- Collapse runs of spaces to a single space (the effect of
`re.sub(r"\s+", " ", t)` after every whitespace or punctuation character
has already been replaced by a space). -/
def squeezeSpaces : List Char → List Char
  | [] => []
  | [c] => [c]
  | a :: b :: rest =>
    if a = ' ' ∧ b = ' ' then squeezeSpaces (b :: rest)
    else a :: squeezeSpaces (b :: rest)

/-- Python `str.strip()` on a character list. -/
def pyStrip (l : List Char) : List Char :=
  ((l.dropWhile isPyWS).reverse.dropWhile isPyWS).reverse

/-- `norm_title` from `News._score_items`: lowercase, replace every
character that is not `[a-z0-9]` and not whitespace by a space
(`re.sub(r"[^a-z0-9\s]+", " ", t)`), collapse whitespace runs, strip.
Replacing whitespace itself by a plain space before collapsing is
equivalent to the Python composition of the two substitutions. -/
def norm_title (t : String) : String :=
  let lowered := t.data.map Char.toLower
  let replaced := lowered.map fun c =>
    if ('a' ≤ c ∧ c ≤ 'z') ∨ ('0' ≤ c ∧ c ≤ '9') then c else ' '
  ⟨pyStrip (squeezeSpaces replaced)⟩

/-- One step of the Python `counts[key] = counts.get(key, 0) + 1` dict
update: set `k` to `v` in an association list. -/
def setAssoc : List (String × Nat) → String → Nat → List (String × Nat)
  | [], k, v => [(k, v)]
  | (k', v') :: rest, k, v =>
    if k' = k then (k, v) :: rest else (k', v') :: setAssoc rest k v

/-- The first pass of `News._score_items`: build the occurrence-count
dict of normalized titles. -/
def buildCounts (keys : List String) : List (String × Nat) :=
  keys.foldl (fun m k => setAssoc m k (((m.lookup k).getD 0) + 1)) []

/-- Python substring containment `needle in hay` on character lists. -/
def containsSub (hay needle : List Char) : Bool :=
  decide (needle <:+: hay)

/-- The ranker configuration consumed by `News._score_items`
(`NewsConfig.source_priorities`, `breaking_keywords`,
`crypto_breaking_keywords`). -/
structure NewsCfg where
  source_priorities : List (String × Int)
  breaking_keywords : List String
  crypto_breaking_keywords : List String

/-- `self.cfg.source_priorities.get(a["source"], self.cfg.source_priorities.get("Unknown", 1))`. -/
def lookupPriority (cfg : NewsCfg) (src : String) : Int :=
  match cfg.source_priorities.lookup src with
  | some v => v
  | none => (cfg.source_priorities.lookup "Unknown").getD 1

/-- The breaking-keyword test of `News._score_items`: any general keyword
occurs in the lowercased title; articles in the crypto category
additionally match against the crypto-specific keyword list. -/
def isBreakingOf (cfg : NewsCfg) (a : Article) : Bool :=
  let lowered := a.title.data.map Char.toLower
  cfg.breaking_keywords.any (fun kw => containsSub lowered kw.data)
    || (a.category == "crypto"
        && cfg.crypto_breaking_keywords.any (fun kw => containsSub lowered kw.data))

/-- `round(x, 4)` of `News._score_items`, modelled as rounding to the
nearest multiple of 1/10000. -/
def round4 (x : ℚ) : ℚ := (round (x * 10000) : ℤ) / 10000

/-- A scored article (`a2` in `News._score_items`): the article plus its
rounded score and the diagnostic fields attached at scoring time. -/
structure Scored where
  art : Article
  score : ℚ
  age_hours : ℚ
  multi_appear : Nat
  breaking : Bool
  deriving Repr, DecidableEq

/-- The sort key of `News._score_items`:
`scored.sort(key=lambda x: (x["score"], x["published_ts"]), reverse=True)`,
i.e. descending lexicographic order on (score, published timestamp). -/
def scoreDesc (a b : Scored) : Prop :=
  b.score < a.score ∨ (b.score = a.score ∧ b.art.published_ts ≤ a.art.published_ts)

instance : DecidableRel scoreDesc := fun a b =>
  inferInstanceAs (Decidable (_ ∨ _))

instance : IsTotal Scored scoreDesc := by
  constructor
  intro a b
  rcases lt_trichotomy a.score b.score with h | h | h
  · exact Or.inr (Or.inl h)
  · rcases le_total b.art.published_ts a.art.published_ts with ht | ht
    · exact Or.inl (Or.inr ⟨h.symm, ht⟩)
    · exact Or.inr (Or.inr ⟨h, ht⟩)
  · exact Or.inl (Or.inl h)

instance : IsTrans Scored scoreDesc := by
  constructor
  intro a b c hab hbc
  rcases hab with hab | ⟨hab, hab'⟩
  · rcases hbc with hbc | ⟨hbc, _⟩
    · exact Or.inl (lt_trans hbc hab)
    · exact Or.inl (hbc ▸ hab)
  · rcases hbc with hbc | ⟨hbc, hbc'⟩
    · exact Or.inl (hab ▸ hbc)
    · exact Or.inr ⟨hab ▸ hbc, le_trans hbc' hab'⟩

/-- `News._score_items`: build the normalized-title occurrence dict, map
every item to its scored record, then sort descending by
(score, published timestamp).  The hard-coded weights are those of the
source: `w_src = 1.2`, `w_multi = 1.0`, `w_kw = 1.0`, `w_recency = 2.0`,
half-life 6 hours.  `d` is the transcendental decay collaborator
standing for `math.exp(-age_hours / half_life)` as a function of
`age_hours` (the division by the half-life happens inside `d`, exactly
as in the source expression); `now` is the cycle's current UTC
timestamp. -/
def score_items (cfg : NewsCfg) (d : ℚ → ℚ) (now : ℚ) (items : List Article) :
    List Scored :=
  let counts := buildCounts (items.map fun a => norm_title a.title)
  let scored := items.map fun a =>
    let srcPriority := lookupPriority cfg a.source
    let c := (counts.lookup (norm_title a.title)).getD 1
    let breaking := isBreakingOf cfg a
    let age := max 0 ((now - a.published_ts) / 3600)
    let recency := d age
    let score := (12 / 10 : ℚ) * (srcPriority : ℚ)
      + 1 * ((c : ℚ) - 1)
      + 1 * (if breaking then (1 : ℚ) else 0)
      + 2 * recency
    Scored.mk a (round4 score) age c breaking
  List.insertionSort scoreDesc scored

/-! ### Composer: `_truncate_tweet` and `News._compose_tweet`
(news.py lines 44-45 and 323-338) -/

/-- `_truncate_tweet(text, limit)`: identity when the text fits,
otherwise the first `limit` characters (Python slicing counts code
points, as does the character-list length here). -/
def truncate_tweet (text : List Char) (limit : Nat) : List Char :=
  if text.length ≤ limit then text else text.take limit

/-- The per-category default hashtags of `News._compose_tweet`, already
prefixed with the joining space (`tags = " " + " ".join(taglist)`);
categories outside the table contribute no tag text. -/
def tagsFor (category : String) : List Char :=
  if category = "ai" then " #AI".data
  else if category = "tech" then " #tech".data
  else if category = "crypto" then " #crypto".data
  else if category = "finance" then " #finance".data
  else []

/-- `News._compose_tweet`: base text (the `_llm_summarize` result,
passed in by the caller since the LLM is an external collaborator), plus
hashtags when the platform config enables them, plus the stripped link,
stripped and truncated to 280 characters. -/
def compose_tweet (hashtags : Bool) (base : List Char) (a : Article) : List Char :=
  let link := pyStrip a.link.data
  let tags := if hashtags then tagsFor a.category else []
  truncate_tweet (pyStrip (base ++ tags ++ [' '] ++ link)) 280

/-! ### Poster: `Twitter.post_tweet` (twitter.py lines 214-244) -/

/-- What the Tweepy `create_tweet` call did, as distinguished by the
`except` handler of `Twitter.post_tweet`: success, a 429
`TooManyRequests` carrying optional `Retry-After` / `x-rate-limit-reset`
headers, or any other exception. -/
inductive CreateTweetOutcome where
  | success (id : String)
  | tooManyRequests (retryAfterHeader : Option Int) (rateLimitResetHeader : Option Int)
  | otherError (reason : String)
  deriving Repr, DecidableEq

/-- The `(ok, tweet_id, retry_after)` triple returned by
`Twitter.post_tweet`. -/
structure PosterReply where
  ok : Bool
  tweetId : Option String
  retryAfter : Option Int
  deriving Repr, DecidableEq

/-- `Twitter.post_tweet`'s mapping from the transport outcome to the
returned triple: success yields `(True, id, None)`; a 429 yields
`(False, None, retry_after)` where `retry_after` is the `Retry-After`
header if present, else `max(0, reset - now)` if the reset header is
present, else `None`; any other error yields `(False, None, None)`. -/
def post_tweet (outcome : CreateTweetOutcome) (nowEpoch : Int) : PosterReply :=
  match outcome with
  | .success id => ⟨true, some id, none⟩
  | .tooManyRequests (some ra) _ => ⟨false, none, some ra⟩
  | .tooManyRequests none (some reset) => ⟨false, none, some (max 0 (reset - nowEpoch))⟩
  | .tooManyRequests none none => ⟨false, none, none⟩
  | .otherError _ => ⟨false, none, none⟩

/-! ### Persisted store: `News._load_processed` / `News._save_processed`
(news.py lines 164-173) -/

/-- Double-quote each fingerprint and join with the `", "` separator
`json.dumps` uses by default. -/
def joinQuoted : List String → List Char
  | [] => []
  | [s] => '"' :: (s.data ++ ['"'])
  | s :: rest => ('"' :: (s.data ++ ['"', ',', ' '])) ++ joinQuoted rest

/-- Serialize a list of fingerprints the way
`json.dumps(sorted(self.processed))` lays it out for the (escape-free,
hex) fingerprint strings actually stored: a JSON array of double-quoted
strings, given here an already-sorted input. -/
def serializeStore (l : List String) : String :=
  ⟨'[' :: (joinQuoted l ++ [']'])⟩

/-- Lexicographic-on-code-points string comparison, as used by Python's
`sorted` on the fingerprint set. -/
def pyLe : List Char → List Char → Bool
  | [], _ => true
  | _ :: _, [] => false
  | a :: as, b :: bs => if a = b then pyLe as bs else decide (a.toNat < b.toNat)

/-- The `sorted(...)` relation on fingerprint strings. -/
def strLE (a b : String) : Prop := pyLe a.data b.data = true

instance : DecidableRel strLE := fun a b => inferInstanceAs (Decidable (_ = true))

/-- `json.dumps(sorted(self.processed))` as content of the store file. -/
def flushFile (processed : List String) : String :=
  serializeStore (List.insertionSort strLE processed)

/-- An in-place `Path.write_text` interrupted after `k` characters:
the target file (whose previous content has been truncated away) holds
only the prefix written so far.  This is the crash model for
`News._save_processed`, which writes directly to `PROCESSED_PATH`
without a temp-file-and-rename step. -/
def interruptedWrite (content : String) (k : Nat) : String :=
  ⟨content.data.take k⟩

/-- Parse one double-quoted, escape-free string literal, returning it
together with the remaining input; fails on a missing closing quote
(as `json.loads` does). -/
def parseStrLit : List Char → List Char → Option (String × List Char)
  | acc, '"' :: rest => some (⟨acc.reverse⟩, rest)
  | acc, c :: rest => if c = '\\' then none else parseStrLit (c :: acc) rest
  | _, [] => none

/-- Parse the comma-separated tail of a JSON array of escape-free string
literals, fuelled by the input length. -/
def parseStoreTail : Nat → List Char → List String → Option (List String)
  | 0, _, _ => none
  | fuel + 1, cs, acc =>
    match cs with
    | '"' :: rest =>
      match parseStrLit [] rest with
      | none => none
      | some (s, rest') =>
        match rest' with
        | ']' :: tail => if tail = [] then some (s :: acc).reverse else none
        | ',' :: ' ' :: tail => parseStoreTail fuel tail (s :: acc)
        | ',' :: tail => parseStoreTail fuel tail (s :: acc)
        | _ => none
    | _ => none

/-- A model of `json.loads` restricted to the store's own format (a flat
JSON array of escape-free string literals): returns `none` exactly on
malformed input, in particular on any strict prefix cut inside the
array. -/
def parseStore (s : String) : Option (List String) :=
  match s.data with
  | '[' :: ']' :: tail => if tail = [] then some [] else none
  | '[' :: rest => parseStoreTail rest.length rest []
  | _ => none

/-- `News._load_processed`: parse the persisted file; a file that fails
to parse is logged and treated as the empty set. -/
def load_processed (fileContent : String) : List String :=
  (parseStore fileContent).getD []

/-! ### Posting loop: `News._post_batch` (news.py lines 341-373) -/

/-- The recursive body of `News._post_batch`'s `for` loop.  State:
`posted` (successful posts so far), `idx` (how many times the poster has
been invoked — the external poster collaborator is a function of this
call index), `proc` (the in-memory `self.processed` set, as a
duplicate-free list).  The returned triple is the final `posted` count,
the final processed set and, in order, the `(article, tweet text)` pairs
for which `self.twitter.post_tweet` was invoked. -/
def postBatchGo (autoPost hashtags : Bool) (composer : Article → List Char)
    (poster : Nat → PosterReply) (maxPosts : Nat) :
    List Article → Nat → Nat → List String →
    Nat × List String × List (Article × List Char)
  | [], posted, _, proc => (posted, proc, [])
  | a :: rest, posted, idx, proc =>
    if maxPosts ≤ posted then (posted, proc, [])
    else if a.hid ∈ proc then
      postBatchGo autoPost hashtags composer poster maxPosts rest posted idx proc
    else
      let tweet := compose_tweet hashtags (composer a) a
      if autoPost = false then
        postBatchGo autoPost hashtags composer poster maxPosts rest posted idx (a.hid :: proc)
      else
        let r := poster idx
        if r.ok then
          let res := postBatchGo autoPost hashtags composer poster maxPosts rest
            (posted + 1) (idx + 1) (a.hid :: proc)
          (res.1, res.2.1, (a, tweet) :: res.2.2)
        else
          match r.retryAfter with
          | some _ => (posted, proc, [(a, tweet)])
          | none =>
            let res := postBatchGo autoPost hashtags composer poster maxPosts rest
              posted (idx + 1) (a.hid :: proc)
            (res.1, res.2.1, (a, tweet) :: res.2.2)

/-- The observable outcome of one `News._post_batch` call. -/
structure BatchResult where
  posted : Nat
  processed : List String
  calls : List (Article × List Char)
  saves : List String
  deriving Repr, DecidableEq

/-- `News._post_batch`: run the loop from `posted = 0` over the ranked
items, then persist the processed set exactly once via
`self._save_processed()` (the single flush performed on every
non-exceptional return path); `saves` records the file contents written,
in order. -/
def post_batch (autoPost hashtags : Bool) (composer : Article → List Char)
    (poster : Nat → PosterReply) (items : List Article) (maxPosts : Nat)
    (proc₀ : List String) : BatchResult :=
  let r := postBatchGo autoPost hashtags composer poster maxPosts items 0 0 proc₀
  ⟨r.1, r.2.1, r.2.2, [flushFile r.2.1]⟩

/-! ### Real-valued recency decay (news.py lines 281-291) -/

/-- `age_hours = max(0.0, (now - published_ts) / 3600.0)`. -/
noncomputable def ageHoursR (now ts : ℝ) : ℝ := max 0 ((now - ts) / 3600)

/-- `recency = math.exp(-age_hours / half_life)` with `half_life = 6.0`. -/
noncomputable def recencyDecay (ageHours : ℝ) : ℝ := Real.exp (-ageHours / 6)

/-- The recency term of the score: `w_recency * recency` with
`w_recency = 2.0`. -/
noncomputable def recencyContrib (ageHours : ℝ) : ℝ := 2 * recencyDecay ageHours

/-! ### The default configuration (news_config.py) -/

/-- `NewsConfig.source_priorities`. -/
def defaultPriorities : List (String × Int) :=
  [("Reuters", 5), ("BBC", 5), ("Associated Press", 5),
   ("TechCrunch", 4), ("The Verge", 4), ("Ars Technica", 4), ("Wired", 4),
   ("CoinDesk", 4), ("Cointelegraph", 3), ("Decrypt", 3), ("CryptoNews", 3),
   ("VentureBeat", 3), ("AI News", 3),
   ("Unknown", 1)]

/-- `NewsConfig.breaking_keywords`. -/
def defaultBreakingKeywords : List String :=
  ["breaking", "urgent", "alert", "major announcement", "significant",
   "crash", "surge", "record high", "record low", "first time",
   "unprecedented", "massive", "huge", "emergency", "critical"]

/-- `NewsConfig.crypto_breaking_keywords`. -/
def defaultCryptoKeywords : List String :=
  ["bitcoin", "btc", "ethereum", "eth", "crash", "surge",
   "all-time high", "ath", "moon", "dump"]

/-- The ranker's view of the default `NewsConfig`. -/
def defaultCfg : NewsCfg :=
  ⟨defaultPriorities, defaultBreakingKeywords, defaultCryptoKeywords⟩

/-- `platform_settings["twitter"]["max_char_limit"]`, the value read
into `self.max_char` by `News.__init__`. -/
def max_char : Nat := 250

/-! ### Concrete articles used in the closed evaluation theorems -/

/-- A lone article from an unknown source, for exercising the ranker. -/
def sampleA : Article := ⟨"a", "ha", "Alpha", "", "http://a", "SrcA", "tech", 0⟩

/-- First posting candidate. -/
def sampleB1 : Article := ⟨"b1", "h1", "t1", "", "l1", "S", "tech", 100⟩

/-- A cross-feed duplicate of `sampleB1` (same fingerprint, different
source, category and timestamp). -/
def sampleB1Dup : Article := ⟨"b1x", "h1", "t1 again", "", "l1x", "T", "crypto", 50⟩

/-- Second posting candidate. -/
def sampleB2 : Article := ⟨"b2", "h2", "t2", "", "l2", "S", "tech", 200⟩

/-- Third posting candidate. -/
def sampleB3 : Article := ⟨"b3", "h3", "t3", "", "l3", "S", "tech", 300⟩

/-- The scored record `score_items` produces for `sampleA` alone (with
zero decay and `now = 0`), spelled as the unevaluated scoring
expression. -/
def sampleAScored : Scored :=
  Scored.mk sampleA
    (round4 ((12 / 10 : ℚ) * ((lookupPriority defaultCfg sampleA.source : Int) : ℚ)
      + 1 * (((((buildCounts ([sampleA].map fun a => norm_title a.title)).lookup
          (norm_title sampleA.title)).getD 1 : Nat) : ℚ) - 1)
      + 1 * (if isBreakingOf defaultCfg sampleA then (1 : ℚ) else 0)
      + 2 * 0))
    (max 0 ((0 - sampleA.published_ts) / 3600))
    (((buildCounts ([sampleA].map fun a => norm_title a.title)).lookup
        (norm_title sampleA.title)).getD 1)
    (isBreakingOf defaultCfg sampleA)

/-! ### Lemmas about the dedup pass -/

theorem dedupeByHid_mem {seen : List String} {l : List Article} {a : Article} :
    a ∈ dedupeByHid seen l → a.hid ∉ seen ∧ a ∈ l := by
  induction l generalizing seen with
  | nil => intro h; simp [dedupeByHid] at h
  | cons b rest ih =>
    intro h
    by_cases hb : b.hid ∈ seen
    · simp only [dedupeByHid, if_pos hb] at h
      obtain ⟨h1, h2⟩ := ih h
      exact ⟨h1, List.mem_cons_of_mem _ h2⟩
    · simp only [dedupeByHid, if_neg hb, List.mem_cons] at h
      rcases h with h | h
      · subst h; exact ⟨hb, List.mem_cons_self _ _⟩
      · obtain ⟨h1, h2⟩ := ih h
        exact ⟨fun hc => h1 (List.mem_cons_of_mem _ hc), List.mem_cons_of_mem _ h2⟩

theorem dedupeByHid_nodup (seen : List String) (l : List Article) :
    ((dedupeByHid seen l).map (·.hid)).Nodup := by
  induction l generalizing seen with
  | nil => simp [dedupeByHid]
  | cons b rest ih =>
    by_cases hb : b.hid ∈ seen
    · simpa only [dedupeByHid, if_pos hb] using ih seen
    · simp only [dedupeByHid, if_neg hb, List.map_cons, List.nodup_cons]
      refine ⟨fun hc => ?_, ih (b.hid :: seen)⟩
      obtain ⟨c, hc1, hc2⟩ := List.mem_map.mp hc
      exact (dedupeByHid_mem hc1).1 (by simp [hc2])

theorem dedupeByHid_mem_hid (seen : List String) (l : List Article) (h : String) :
    h ∈ (dedupeByHid seen l).map (·.hid) ↔ h ∉ seen ∧ h ∈ l.map (·.hid) := by
  induction l generalizing seen with
  | nil => simp [dedupeByHid]
  | cons b rest ih =>
    by_cases hb : b.hid ∈ seen
    · simp only [dedupeByHid, if_pos hb, ih, List.map_cons, List.mem_cons]
      constructor
      · rintro ⟨h1, h2⟩; exact ⟨h1, Or.inr h2⟩
      · rintro ⟨h1, h2 | h2⟩
        · exact absurd (h2 ▸ hb) h1
        · exact ⟨h1, h2⟩
    · simp only [dedupeByHid, if_neg hb, List.map_cons, List.mem_cons, ih]
      constructor
      · rintro (rfl | ⟨h1, h2⟩)
        · exact ⟨hb, Or.inl rfl⟩
        · exact ⟨fun hc => h1 (Or.inr hc), Or.inr h2⟩
      · rintro ⟨h1, rfl | h2⟩
        · exact Or.inl rfl
        · by_cases hbh : h = b.hid
          · exact Or.inl hbh
          · exact Or.inr ⟨fun hc => hc.elim hbh h1, h2⟩

theorem dedupeByHid_find? {seen : List String} {l : List Article} {a : Article} :
    a ∈ dedupeByHid seen l → l.find? (fun b => b.hid == a.hid) = some a := by
  induction l generalizing seen with
  | nil => intro h; simp [dedupeByHid] at h
  | cons b rest ih =>
    intro h
    by_cases hb : b.hid ∈ seen
    · simp only [dedupeByHid, if_pos hb] at h
      have hne : b.hid ≠ a.hid := fun hc => (dedupeByHid_mem h).1 (hc ▸ hb)
      rw [List.find?_cons_of_neg _ (by simpa using hne)]
      exact ih h
    · simp only [dedupeByHid, if_neg hb, List.mem_cons] at h
      rcases h with h | h
      · subst h
        exact List.find?_cons_of_pos _ (by simp)
      · have hna : a.hid ∉ b.hid :: seen := (dedupeByHid_mem h).1
        have hne : b.hid ≠ a.hid := fun hc => hna (by simp [hc])
        rw [List.find?_cons_of_neg _ (by simpa using hne)]
        exact ih h

/-- C4: the claimed properties hold for the dedup-and-sort output,
stated relative to the collected fetch items. -/
theorem fetch_dedup_sort_spec (feedsOf : List (String × List String))
    (parse : String → String → Nat → List Article)
    (cats : List String) (maxTotal : Nat) :
    ((fetchCategories feedsOf parse cats maxTotal).map (·.hid)).Nodup
    ∧ (∀ h, h ∈ (fetchCategories feedsOf parse cats maxTotal).map (·.hid) ↔
        h ∈ (collectItems feedsOf parse cats maxTotal).map (·.hid))
    ∧ (∀ a ∈ fetchCategories feedsOf parse cats maxTotal,
        (collectItems feedsOf parse cats maxTotal).find? (fun b => b.hid == a.hid) = some a)
    ∧ (fetchCategories feedsOf parse cats maxTotal).Pairwise tsDesc := by
  have hperm :
      List.Perm (fetchCategories feedsOf parse cats maxTotal)
        (dedupeByHid [] (collectItems feedsOf parse cats maxTotal)) :=
    List.perm_insertionSort tsDesc _
  have hmap := hperm.map (·.hid)
  refine ⟨hmap.nodup_iff.mpr (dedupeByHid_nodup _ _), fun h => ?_, fun a ha => ?_, ?_⟩
  · rw [hmap.mem_iff, dedupeByHid_mem_hid]
    simp
  · exact dedupeByHid_find? (hperm.mem_iff.mp ha)
  · exact List.sorted_insertionSort tsDesc _

/-! ### Lemmas about the occurrence-count dict and the breaking test -/

theorem lookup_setAssoc (m : List (String × Nat)) (k : String) (v : Nat) (k' : String) :
    (setAssoc m k v).lookup k' = if k' = k then some v else m.lookup k' := by
  induction m with
  | nil =>
    cases hb : (k' == k) with
    | false =>
      have h : ¬k' = k := by simpa using hb
      simp [setAssoc, List.lookup_cons, hb, h]
    | true =>
      have h : k' = k := by simpa using hb
      simp [setAssoc, List.lookup_cons, hb, h]
  | cons p rest ih =>
    obtain ⟨k0, v0⟩ := p
    by_cases h0 : k0 = k
    · subst h0
      simp only [setAssoc, if_pos rfl]
      cases hb : (k' == k0) with
      | false =>
        have h : ¬k' = k0 := by simpa using hb
        simp [List.lookup_cons, hb, h]
      | true =>
        have h : k' = k0 := by simpa using hb
        simp [List.lookup_cons, hb, h]
    · simp only [setAssoc, if_neg h0]
      cases hb : (k' == k0) with
      | false =>
        have h : ¬k' = k0 := by simpa using hb
        simp [List.lookup_cons, hb, ih]
      | true =>
        have h : k' = k0 := by simpa using hb
        have hkk : ¬k' = k := fun hc => h0 (h ▸ hc)
        simp [List.lookup_cons, hb, hkk]

theorem foldl_counts_lookup (ks : List String) (m : List (String × Nat)) (k : String) :
    ((ks.foldl (fun m k => setAssoc m k (((m.lookup k).getD 0) + 1)) m).lookup k)
      = if m.lookup k = none ∧ ks.countP (fun x => x == k) = 0 then none
        else some ((m.lookup k).getD 0 + ks.countP (fun x => x == k)) := by
  induction ks generalizing m with
  | nil =>
    cases h : m.lookup k <;> simp [h]
  | cons k0 ktl ih =>
    rw [List.foldl_cons, ih, List.countP_cons, lookup_setAssoc]
    by_cases hk : k = k0
    · subst hk
      have hb : (k == k) = true := by simp
      cases h : m.lookup k <;>
        simp only [if_pos rfl, h, hb, Option.getD_some, Option.getD_none, if_true] <;>
        · rw [if_neg (by simp), if_neg (by simp [h])]
          congr 1
          omega
    · have hb : (k0 == k) = false := by
        simp only [beq_eq_false_iff_ne, ne_eq]
        exact fun hc => hk hc.symm
      rw [if_neg hk, hb]
      simp

theorem buildCounts_lookup_mem {ks : List String} {k : String} (h : k ∈ ks) :
    (buildCounts ks).lookup k = some (ks.countP (fun x => x == k)) := by
  have hc : ks.countP (fun x => x == k) ≠ 0 := by
    rw [Ne, List.countP_eq_zero]
    intro hall
    exact absurd (hall k h) (by simp)
  rw [buildCounts, foldl_counts_lookup]
  simp [List.lookup, hc]

theorem isBreakingOf_iff (cfg : NewsCfg) (a : Article) :
    isBreakingOf cfg a = true ↔
      (∃ kw ∈ cfg.breaking_keywords, kw.data <:+: a.title.data.map Char.toLower)
        ∨ (a.category = "crypto"
            ∧ ∃ kw ∈ cfg.crypto_breaking_keywords, kw.data <:+: a.title.data.map Char.toLower) := by
  simp [isBreakingOf, containsSub, List.any_eq_true, Bool.or_eq_true, Bool.and_eq_true,
    decide_eq_true_eq, beq_iff_eq]

/-- C5: every scored record's score is the rounded weighted sum of the
four terms, with the corroboration count equal to the number of fetched
items sharing the article's normalized title, and the breaking term a
boolean bonus; moreover, in the default configuration a source missing
from the priority table gets tier 1, the minimum of all configured
tiers. -/
theorem score_items_spec :
    (∀ (cfg : NewsCfg) (d : ℚ → ℚ) (now : ℚ) (items : List Article),
      ∀ s ∈ score_items cfg d now items,
        s.score = round4 ((12 / 10 : ℚ) * (lookupPriority cfg s.art.source : ℚ)
          + (((items.countP fun b => norm_title b.title == norm_title s.art.title : Nat) : ℚ) - 1)
          + (if (∃ kw ∈ cfg.breaking_keywords, kw.data <:+: s.art.title.data.map Char.toLower)
                ∨ (s.art.category = "crypto"
                    ∧ ∃ kw ∈ cfg.crypto_breaking_keywords,
                        kw.data <:+: s.art.title.data.map Char.toLower)
             then (1 : ℚ) else 0)
          + 2 * d (max 0 ((now - s.art.published_ts) / 3600))))
    ∧ (∀ src : String, defaultPriorities.lookup src = none →
        lookupPriority defaultCfg src = 1)
    ∧ (∀ p ∈ defaultPriorities, 1 ≤ p.2) := by
  refine ⟨?_, ?_, by decide⟩
  · intro cfg d now items s hs
    have hperm := List.perm_insertionSort scoreDesc
      (items.map fun a =>
        let srcPriority := lookupPriority cfg a.source
        let c := ((buildCounts (items.map fun a => norm_title a.title)).lookup
          (norm_title a.title)).getD 1
        let breaking := isBreakingOf cfg a
        let age := max 0 ((now - a.published_ts) / 3600)
        let recency := d age
        let score := (12 / 10 : ℚ) * (srcPriority : ℚ)
          + 1 * ((c : ℚ) - 1)
          + 1 * (if breaking then (1 : ℚ) else 0)
          + 2 * recency
        Scored.mk a (round4 score) age c breaking)
    have hs' : s ∈ items.map fun a =>
        let srcPriority := lookupPriority cfg a.source
        let c := ((buildCounts (items.map fun a => norm_title a.title)).lookup
          (norm_title a.title)).getD 1
        let breaking := isBreakingOf cfg a
        let age := max 0 ((now - a.published_ts) / 3600)
        let recency := d age
        let score := (12 / 10 : ℚ) * (srcPriority : ℚ)
          + 1 * ((c : ℚ) - 1)
          + 1 * (if breaking then (1 : ℚ) else 0)
          + 2 * recency
        Scored.mk a (round4 score) age c breaking := hperm.mem_iff.mp hs
    obtain ⟨a, ha, rfl⟩ := List.mem_map.mp hs'
    have hkey : norm_title a.title ∈ items.map fun b => norm_title b.title :=
      List.mem_map.mpr ⟨a, ha, rfl⟩
    have hcount := buildCounts_lookup_mem hkey
    have hcountP : (items.map fun b => norm_title b.title).countP
        (fun x => x == norm_title a.title)
        = items.countP fun b => norm_title b.title == norm_title a.title :=
      List.countP_map _ _ _
    simp only [hcount, hcountP, Option.getD_some]
    have hbrk : (if isBreakingOf cfg a then (1 : ℚ) else 0)
        = if (∃ kw ∈ cfg.breaking_keywords, kw.data <:+: a.title.data.map Char.toLower)
              ∨ (a.category = "crypto"
                  ∧ ∃ kw ∈ cfg.crypto_breaking_keywords,
                      kw.data <:+: a.title.data.map Char.toLower)
           then (1 : ℚ) else 0 := by
      by_cases hb : isBreakingOf cfg a = true
      · rw [if_pos hb, if_pos ((isBreakingOf_iff cfg a).mp hb)]
      · rw [if_neg (by simpa using hb), if_neg fun hc => hb ((isBreakingOf_iff cfg a).mpr hc)]
    rw [hbrk]
    ring_nf
  · intro src h
    simp [lookupPriority, defaultCfg, h]
    decide

/-- C6: the ranker's output is totally ordered by descending score with
ties broken by descending published timestamp: whenever `a` precedes `b`
in the output, either `b`'s score is strictly below `a`'s, or the scores
are equal and `b` is not newer than `a` (so among equal scores the newer
article comes first). -/
theorem score_items_sorted (cfg : NewsCfg) (d : ℚ → ℚ) (now : ℚ) (items : List Article) :
    (score_items cfg d now items).Pairwise
      (fun a b => b.score < a.score
        ∨ (b.score = a.score ∧ b.art.published_ts ≤ a.art.published_ts)) :=
  List.sorted_insertionSort scoreDesc _

/-! ### The recency decay over the reals (C7) -/

/-- C7 (corrected): the recency contribution is
`w_recency * exp(-age_hours / half_life)` with half-life 6; it is
weakly decreasing in `age_hours`, never negative, maximal at
`age_hours = 0` among the clamped (nonnegative) ages, and tends to zero
as `age_hours` grows without bound; but an article whose timestamp lies
in the future is clamped to `age_hours = 0`, hence receives the maximal
recency contribution rather than an asymptotically vanishing one. -/
theorem recency_spec :
    (∀ age : ℝ, recencyContrib age = 2 * Real.exp (-age / 6))
    ∧ (∀ a b : ℝ, a ≤ b → recencyContrib b ≤ recencyContrib a)
    ∧ (∀ a : ℝ, 0 ≤ recencyContrib a)
    ∧ (∀ a : ℝ, 0 ≤ a → recencyContrib a ≤ recencyContrib 0)
    ∧ Filter.Tendsto recencyContrib Filter.atTop (nhds 0)
    ∧ (∀ now ts : ℝ, now ≤ ts → ageHoursR now ts = 0) := by
  have hmono : ∀ a b : ℝ, a ≤ b → recencyContrib b ≤ recencyContrib a := by
    intro a b hab
    have h1 : -b / 6 ≤ -a / 6 := by linarith
    have h2 := Real.exp_le_exp.mpr h1
    simpa [recencyContrib, recencyDecay] using
      mul_le_mul_of_nonneg_left h2 (by norm_num : (0 : ℝ) ≤ 2)
  refine ⟨fun age => rfl, hmono, ?_, fun a ha => hmono 0 a ha, ?_, ?_⟩
  · intro a
    have := Real.exp_pos (-a / 6)
    simp only [recencyContrib, recencyDecay]
    positivity
  · have hdiv : Filter.Tendsto (fun a : ℝ => -a / 6) Filter.atTop Filter.atBot :=
      Filter.Tendsto.atBot_div_const (by norm_num) Filter.tendsto_neg_atTop_atBot
    have hexp : Filter.Tendsto (fun a : ℝ => Real.exp (-a / 6)) Filter.atTop (nhds 0) :=
      Real.tendsto_exp_atBot.comp hdiv
    have := hexp.const_mul (2 : ℝ)
    simpa [recencyContrib, recencyDecay] using this
  · intro now ts h
    have : (now - ts) / 3600 ≤ 0 :=
      div_nonpos_of_nonpos_of_nonneg (by linarith) (by norm_num)
    simp [ageHoursR, max_eq_left this]

/-- C7 witness: monotonicity and the future clamp at concrete ages. -/
theorem recency_spec_witness :
    (0 : ℝ) ≤ 1
    ∧ recencyContrib 1 ≤ recencyContrib 0
    ∧ ageHoursR 0 1 = 0 :=
  ⟨zero_le_one, recency_spec.2.2.2.1 1 zero_le_one,
    recency_spec.2.2.2.2.2 0 1 zero_le_one⟩

/-- C7 counterexample: a clock-skewed-into-the-future article is clamped
to age 0 and receives the maximal recency contribution `2`; the
contribution as a function of an ever-more-future timestamp is constant
at `2`, so it does not tend to zero. -/
theorem recency_future_counterexample :
    ageHoursR 0 36000 = 0
    ∧ recencyContrib (ageHoursR 0 36000) = 2
    ∧ ¬ Filter.Tendsto (fun ts : ℝ => recencyContrib (ageHoursR 0 ts))
        Filter.atTop (nhds 0) := by
  have hage : ∀ ts : ℝ, 0 ≤ ts → ageHoursR 0 ts = 0 := by
    intro ts h
    have hle : (0 - ts) / 3600 ≤ 0 :=
      div_nonpos_of_nonpos_of_nonneg (by linarith) (by norm_num)
    simp only [ageHoursR]
    exact max_eq_left hle
  have hval : recencyContrib 0 = 2 := by
    simp [recencyContrib, recencyDecay]
  refine ⟨hage 36000 (by norm_num), by rw [hage 36000 (by norm_num), hval], ?_⟩
  intro h
  have h2 : Filter.Tendsto (fun ts : ℝ => recencyContrib (ageHoursR 0 ts))
      Filter.atTop (nhds 2) := by
    refine Filter.Tendsto.congr' ?_ tendsto_const_nhds
    filter_upwards [Filter.eventually_ge_atTop (0 : ℝ)] with ts hts
    rw [hage ts hts, hval]
  have := tendsto_nhds_unique h h2
  norm_num at this

/-! ### Lemmas about the posting loop -/

theorem truncate_tweet_length_le (text : List Char) (limit : Nat) :
    (truncate_tweet text limit).length ≤ limit := by
  simp only [truncate_tweet]
  split
  · assumption
  · simp

theorem compose_tweet_length_le (hashtags : Bool) (base : List Char) (a : Article) :
    (compose_tweet hashtags base a).length ≤ 280 :=
  truncate_tweet_length_le _ _

theorem postBatchGo_proc_mono (ap hs : Bool) (composer : Article → List Char)
    (poster : Nat → PosterReply) (maxPosts : Nat) :
    ∀ (items : List Article) (posted idx : Nat) (proc : List String) (h : String),
      h ∈ proc →
      h ∈ (postBatchGo ap hs composer poster maxPosts items posted idx proc).2.1 := by
  intro items
  induction items with
  | nil => intro posted idx proc h hh; simpa [postBatchGo] using hh
  | cons a rest ih =>
    intro posted idx proc h hh
    simp only [postBatchGo]
    by_cases h1 : maxPosts ≤ posted
    · simpa [h1] using hh
    · simp only [if_neg h1]
      by_cases h2 : a.hid ∈ proc
      · simpa [h2] using ih _ _ _ _ hh
      · simp only [if_neg h2]
        by_cases h3 : ap = false
        · simpa [h3] using ih _ _ _ _ (List.mem_cons_of_mem _ hh)
        · simp only [if_neg h3]
          cases hok : (poster idx).ok
          · cases hra : (poster idx).retryAfter
            · simpa [hok, hra] using ih _ _ _ _ (List.mem_cons_of_mem _ hh)
            · simpa [hok, hra] using hh
          · simpa [hok] using ih _ _ _ _ (List.mem_cons_of_mem _ hh)

theorem postBatchGo_calls_fresh (ap hs : Bool) (composer : Article → List Char)
    (poster : Nat → PosterReply) (maxPosts : Nat) (S : List String) :
    ∀ (items : List Article) (posted idx : Nat) (proc : List String),
      (∀ x ∈ S, x ∈ proc) →
      ∀ p ∈ (postBatchGo ap hs composer poster maxPosts items posted idx proc).2.2,
        p.1.hid ∉ S := by
  intro items
  induction items with
  | nil => intro posted idx proc _ p hp; simp [postBatchGo] at hp
  | cons a rest ih =>
    intro posted idx proc hS p hp
    simp only [postBatchGo] at hp
    by_cases h1 : maxPosts ≤ posted
    · simp [h1] at hp
    · simp only [if_neg h1] at hp
      by_cases h2 : a.hid ∈ proc
      · simp only [if_pos h2] at hp
        exact ih _ _ _ hS p hp
      · simp only [if_neg h2] at hp
        by_cases h3 : ap = false
        · simp only [if_pos h3] at hp
          exact ih _ _ _ (fun x hx => List.mem_cons_of_mem _ (hS x hx)) p hp
        · simp only [if_neg h3] at hp
          cases hok : (poster idx).ok
          · rw [hok] at hp
            cases hra : (poster idx).retryAfter
            · rw [hra] at hp
              simp only [Bool.false_eq_true, if_false, List.mem_cons] at hp
              rcases hp with hp | hp
              · subst hp; exact fun hc => h2 (hS _ hc)
              · exact ih _ _ _ (fun x hx => List.mem_cons_of_mem _ (hS x hx)) p hp
            · rw [hra] at hp
              simp only [Bool.false_eq_true, if_false, List.mem_singleton] at hp
              subst hp
              exact fun hc => h2 (hS _ hc)
          · rw [hok] at hp
            simp only [if_true, List.mem_cons] at hp
            rcases hp with hp | hp
            · subst hp; exact fun hc => h2 (hS _ hc)
            · exact ih _ _ _ (fun x hx => List.mem_cons_of_mem _ (hS x hx)) p hp

theorem postBatchGo_calls_length (ap hs : Bool) (composer : Article → List Char)
    (poster : Nat → PosterReply) (maxPosts : Nat) :
    ∀ (items : List Article) (posted idx : Nat) (proc : List String),
      ∀ p ∈ (postBatchGo ap hs composer poster maxPosts items posted idx proc).2.2,
        p.2.length ≤ 280 := by
  intro items
  induction items with
  | nil => intro posted idx proc p hp; simp [postBatchGo] at hp
  | cons a rest ih =>
    intro posted idx proc p hp
    simp only [postBatchGo] at hp
    by_cases h1 : maxPosts ≤ posted
    · simp [h1] at hp
    · simp only [if_neg h1] at hp
      by_cases h2 : a.hid ∈ proc
      · simp only [if_pos h2] at hp
        exact ih _ _ _ p hp
      · simp only [if_neg h2] at hp
        by_cases h3 : ap = false
        · simp only [if_pos h3] at hp
          exact ih _ _ _ p hp
        · simp only [if_neg h3] at hp
          cases hok : (poster idx).ok
          · rw [hok] at hp
            cases hra : (poster idx).retryAfter
            · rw [hra] at hp
              simp only [Bool.false_eq_true, if_false, List.mem_cons] at hp
              rcases hp with hp | hp
              · subst hp; exact compose_tweet_length_le _ _ _
              · exact ih _ _ _ p hp
            · rw [hra] at hp
              simp only [Bool.false_eq_true, if_false, List.mem_singleton] at hp
              subst hp
              exact compose_tweet_length_le _ _ _
          · rw [hok] at hp
            simp only [if_true, List.mem_cons] at hp
            rcases hp with hp | hp
            · subst hp; exact compose_tweet_length_le _ _ _
            · exact ih _ _ _ p hp

theorem postBatchGo_dryrun (hs : Bool) (composer : Article → List Char)
    (poster : Nat → PosterReply) (maxPosts : Nat) :
    ∀ (items : List Article) (posted idx : Nat) (proc : List String),
      posted < maxPosts →
      postBatchGo false hs composer poster maxPosts items posted idx proc
        = (posted,
           items.foldl (fun p a => if a.hid ∈ p then p else a.hid :: p) proc,
           []) := by
  intro items
  induction items with
  | nil => intro posted idx proc _; simp [postBatchGo]
  | cons a rest ih =>
    intro posted idx proc hlt
    simp only [postBatchGo, if_neg (Nat.not_le.mpr hlt), List.foldl_cons]
    by_cases h2 : a.hid ∈ proc
    · simp only [if_pos h2]
      exact ih _ _ _ hlt
    · simp only [if_neg h2]
      exact ih _ _ _ hlt

theorem foldl_mark_mem (items : List Article) :
    ∀ (proc : List String) (h : String),
      h ∈ items.foldl (fun p a => if a.hid ∈ p then p else a.hid :: p) proc
        ↔ h ∈ proc ∨ h ∈ items.map (·.hid) := by
  induction items with
  | nil => intro proc h; simp
  | cons a rest ih =>
    intro proc h
    simp only [List.foldl_cons, List.map_cons, List.mem_cons]
    by_cases h2 : a.hid ∈ proc
    · rw [if_pos h2, ih]
      constructor
      · rintro (hp | hp)
        · exact Or.inl hp
        · exact Or.inr (Or.inr hp)
      · rintro (hp | rfl | hp)
        · exact Or.inl hp
        · exact Or.inl h2
        · exact Or.inr hp
    · rw [if_neg h2, ih]
      simp only [List.mem_cons]
      constructor
      · rintro ((rfl | hp) | hp)
        · exact Or.inr (Or.inl rfl)
        · exact Or.inl hp
        · exact Or.inr (Or.inr hp)
      · rintro (hp | rfl | hp)
        · exact Or.inl (Or.inr hp)
        · exact Or.inl (Or.inl rfl)
        · exact Or.inr hp

/-! ### C1: behaviour on rate-limit outcomes -/

/-- C1 counterexample: a Poster reporting a rate-limit outcome *without*
a retry-after duration (`Twitter.post_tweet` returns
`(False, None, None)` for a 429 whose headers yield no duration, the
`RateLimited(null)` case) does not stop the cycle: with two fresh
candidates both are attempted, and the first candidate's fingerprint is
added to the processed set. -/
theorem rate_limit_no_duration_counterexample :
    (post_batch true true (fun _ => [])
        (fun _ => post_tweet (.tooManyRequests none none) 0)
        [sampleB1, sampleB2] 5 []).calls.length = 2
    ∧ sampleB1.hid ∈ (post_batch true true (fun _ => [])
        (fun _ => post_tweet (.tooManyRequests none none) 0)
        [sampleB1, sampleB2] 5 []).processed := by
  constructor
  · decide
  · decide

/-- C1 (corrected): when the Poster reports a rate-limit outcome that
carries a retry-after duration (`retry_after` is not `None`), the cycle
stops immediately at that candidate: the loop returns with the processed
set and posted count unchanged, exactly one further poster invocation
(the rate-limited one) recorded, and none of the remaining candidates
attempted; in particular the candidate's fingerprint is not added.  A
rate-limit outcome without a duration is indistinguishable from a
permanent failure at this interface and is handled as such. -/
theorem rate_limit_stops_cycle (hs : Bool) (composer : Article → List Char)
    (poster : Nat → PosterReply) (maxPosts : Nat) (a : Article)
    (rest : List Article) (posted idx : Nat) (proc : List String) (w : Int)
    (h1 : posted < maxPosts) (h2 : a.hid ∉ proc)
    (hok : (poster idx).ok = false) (hra : (poster idx).retryAfter = some w) :
    postBatchGo true hs composer poster maxPosts (a :: rest) posted idx proc
      = (posted, proc, [(a, compose_tweet hs (composer a) a)])
    ∧ a.hid ∉
        (postBatchGo true hs composer poster maxPosts (a :: rest) posted idx proc).2.1 := by
  have heq : postBatchGo true hs composer poster maxPosts (a :: rest) posted idx proc
      = (posted, proc, [(a, compose_tweet hs (composer a) a)]) := by
    simp only [postBatchGo, if_neg (Nat.not_le.mpr h1), if_neg h2]
    simp [hok, hra]
  exact ⟨heq, by rw [heq]; exact h2⟩

/-- C1 witness: the rate-limit-with-duration early stop at a concrete
state. -/
theorem rate_limit_stops_cycle_witness :
    0 < 5
    ∧ sampleB1.hid ∉ ([] : List String)
    ∧ postBatchGo true true (fun _ => [])
        (fun _ => PosterReply.mk false none (some 60)) 5 [sampleB1, sampleB2] 0 0 []
        = (0, [], [(sampleB1, compose_tweet true [] sampleB1)]) :=
  ⟨by decide, by decide,
    (rate_limit_stops_cycle true (fun _ => [])
      (fun _ => PosterReply.mk false none (some 60)) 5 sampleB1 [sampleB2] 0 0 [] 60
      (by decide) (by decide) rfl rfl).1⟩

/-! ### C2: dry-run behaviour -/

/-- C2 counterexample: with auto-post disabled, 3 eligible candidates
and cap 2, the Poster is indeed never invoked, but all 3 fingerprints
are marked as stored, not 2: the cap only counts successful posts and a
dry-run iteration never increments it. -/
theorem dryrun_cap_counterexample :
    (post_batch false true (fun _ => []) (fun _ => PosterReply.mk true (some "1") none)
        [sampleB1, sampleB2, sampleB3] 2 []).calls = []
    ∧ (post_batch false true (fun _ => []) (fun _ => PosterReply.mk true (some "1") none)
        [sampleB1, sampleB2, sampleB3] 2 []).processed.length = 3
    ∧ ¬ (post_batch false true (fun _ => []) (fun _ => PosterReply.mk true (some "1") none)
        [sampleB1, sampleB2, sampleB3] 2 []).processed.length = 2 := by
  refine ⟨by decide, by decide, by decide⟩

/-- C2 (corrected): with auto-post disabled and a positive per-cycle
cap, a posting batch never invokes the Poster and marks as stored the
fingerprints of *all* candidates (every eligible candidate's fingerprint
is added; already-processed fingerprints stay), regardless of the cap. -/
theorem dryrun_marks_all_eligible (hs : Bool) (composer : Article → List Char)
    (poster : Nat → PosterReply) (items : List Article) (maxPosts : Nat)
    (proc₀ : List String) (h : 0 < maxPosts) :
    (post_batch false hs composer poster items maxPosts proc₀).calls = []
    ∧ ∀ x, x ∈ (post_batch false hs composer poster items maxPosts proc₀).processed
        ↔ x ∈ proc₀ ∨ x ∈ items.map (·.hid) := by
  have hgo := postBatchGo_dryrun hs composer poster maxPosts items 0 0 proc₀ h
  constructor
  · simp [post_batch, hgo]
  · intro x
    simp only [post_batch, hgo]
    exact foldl_mark_mem items proc₀ x

/-- C2 witness: the dry-run marking at a concrete input. -/
theorem dryrun_marks_all_eligible_witness :
    0 < 2
    ∧ (post_batch false true (fun _ => []) (fun _ => PosterReply.mk true (some "1") none)
        [sampleB1] 2 []).calls = []
    ∧ (sampleB1.hid ∈ (post_batch false true (fun _ => [])
          (fun _ => PosterReply.mk true (some "1") none) [sampleB1] 2 []).processed
        ↔ sampleB1.hid ∈ ([] : List String) ∨ sampleB1.hid ∈ [sampleB1].map (·.hid)) :=
  ⟨by decide,
    (dryrun_marks_all_eligible true (fun _ => [])
      (fun _ => PosterReply.mk true (some "1") none) [sampleB1] 2 [] (by decide)).1,
    (dryrun_marks_all_eligible true (fun _ => [])
      (fun _ => PosterReply.mk true (some "1") none) [sampleB1] 2 [] (by decide)).2
      sampleB1.hid⟩

/-! ### C3: the flush is not atomic -/

/-- C3: evaluating the store at the failing input.  A completed flush of
the set containing only `"aa"` loads back as `["aa"]`; a subsequent
flush of the set containing `"aa"` and `"bb"` that is interrupted after
3 characters leaves the file holding the corrupt prefix (the in-place
`write_text` has already destroyed the previous content), which loads as
the empty set — not as the last successfully completed flush. -/
theorem flush_not_atomic_eval :
    load_processed (flushFile ["aa"]) = ["aa"]
    ∧ load_processed (interruptedWrite (flushFile ["aa", "bb"]) 3) = []
    ∧ ([] : List String) ≠ ["aa"] := by
  refine ⟨by decide, by decide, by decide⟩

/-- C4 witness: the dedup keeps the first occurrence of a duplicated
fingerprint, at a concrete fetch. -/
theorem fetch_dedup_sort_spec_witness :
    sampleB1 ∈ fetchCategories [("tech", ["u"])]
      (fun _ _ _ => [sampleB1, sampleB1Dup, sampleB2]) ["tech"] 10
    ∧ (collectItems [("tech", ["u"])]
        (fun _ _ _ => [sampleB1, sampleB1Dup, sampleB2]) ["tech"] 10).find?
        (fun b => b.hid == sampleB1.hid) = some sampleB1 :=
  ⟨by decide,
    (fetch_dedup_sort_spec [("tech", ["u"])]
      (fun _ _ _ => [sampleB1, sampleB1Dup, sampleB2]) ["tech"] 10).2.2.1 sampleB1
      (by decide)⟩

/-- C5 witness: the score formula at a concrete single-article input
(unknown source, unique title, no breaking keyword, zero decay). -/
theorem score_items_spec_witness :
    sampleAScored ∈ score_items defaultCfg (fun _ => (0 : ℚ)) 0 [sampleA]
    ∧ sampleAScored.score
        = round4 ((12 / 10 : ℚ)
            * (lookupPriority defaultCfg sampleAScored.art.source : ℚ)
          + ((([sampleA].countP fun b =>
                norm_title b.title == norm_title sampleAScored.art.title : Nat) : ℚ) - 1)
          + (if (∃ kw ∈ defaultCfg.breaking_keywords,
                  kw.data <:+: sampleAScored.art.title.data.map Char.toLower)
                ∨ (sampleAScored.art.category = "crypto"
                    ∧ ∃ kw ∈ defaultCfg.crypto_breaking_keywords,
                        kw.data <:+: sampleAScored.art.title.data.map Char.toLower)
             then (1 : ℚ) else 0)
          + 2 * (fun _ => (0 : ℚ))
              (max 0 ((0 - sampleAScored.art.published_ts) / 3600))) := by
  have hmem : sampleAScored ∈ score_items defaultCfg (fun _ => (0 : ℚ)) 0 [sampleA] :=
    List.mem_singleton.mpr rfl
  exact ⟨hmem,
    score_items_spec.1 defaultCfg (fun _ => (0 : ℚ)) 0 [sampleA] sampleAScored hmem⟩

/-! ### C8, C9, C10: batch invariants -/

/-- C8: an article whose fingerprint is in the processed set when the
batch starts is never passed to the Poster during that batch. -/
theorem no_double_post (ap hs : Bool) (composer : Article → List Char)
    (poster : Nat → PosterReply) (items : List Article) (maxPosts : Nat)
    (proc₀ : List String) :
    ∀ p ∈ (post_batch ap hs composer poster items maxPosts proc₀).calls,
      p.1.hid ∉ proc₀ := by
  intro p hp
  exact postBatchGo_calls_fresh ap hs composer poster maxPosts proc₀ items 0 0 proc₀
    (fun x hx => hx) p hp

/-- C8 witness: a concrete batch whose single poster call concerns a
fingerprint outside the initial store. -/
theorem no_double_post_witness :
    (sampleB1, compose_tweet true [] sampleB1)
        ∈ (post_batch true true (fun _ => [])
            (fun _ => PosterReply.mk true (some "1") none) [sampleB1] 5 ["old"]).calls
    ∧ (sampleB1, compose_tweet true [] sampleB1).1.hid ∉ ["old"] :=
  ⟨by decide,
    no_double_post true true (fun _ => [])
      (fun _ => PosterReply.mk true (some "1") none) [sampleB1] 5 ["old"]
      (sampleB1, compose_tweet true [] sampleB1) (by decide)⟩

/-- C9: every text the posting batch passes to the Poster is at most 280
characters long (the `_truncate_tweet` limit), and the configured
`max_char_limit` of 250 read into `self.max_char` is not the enforced
limit: a composed tweet of length 280 exceeds it and is passed through
unchanged. -/
theorem tweet_length_le_280 :
    (∀ (ap hs : Bool) (composer : Article → List Char) (poster : Nat → PosterReply)
        (items : List Article) (maxPosts : Nat) (proc₀ : List String),
      ∀ p ∈ (post_batch ap hs composer poster items maxPosts proc₀).calls,
        p.2.length ≤ 280)
    ∧ max_char = 250
    ∧ max_char < (compose_tweet true (List.replicate 300 'x') sampleB1).length
    ∧ (compose_tweet true (List.replicate 300 'x') sampleB1).length = 280 := by
  refine ⟨?_, rfl, by decide, by decide⟩
  intro ap hs composer poster items maxPosts proc₀ p hp
  exact postBatchGo_calls_length ap hs composer poster maxPosts items 0 0 proc₀ p hp

/-- C9 witness: the length bound at a concrete poster call. -/
theorem tweet_length_le_280_witness :
    (sampleB2, compose_tweet true [] sampleB2)
        ∈ (post_batch true true (fun _ => [])
            (fun _ => PosterReply.mk true (some "1") none) [sampleB2] 5 []).calls
    ∧ (sampleB2, compose_tweet true [] sampleB2).2.length ≤ 280 :=
  ⟨by decide,
    tweet_length_le_280.1 true true (fun _ => [])
      (fun _ => PosterReply.mk true (some "1") none) [sampleB2] 5 []
      (sampleB2, compose_tweet true [] sampleB2) (by decide)⟩

/-- C10: a posting batch only ever grows the processed-fingerprint set
(every fingerprint present on entry is present on return), and on every
non-exceptional return path it writes the serialized complete final set
back to the store file exactly once. -/
theorem post_batch_state (ap hs : Bool) (composer : Article → List Char)
    (poster : Nat → PosterReply) (items : List Article) (maxPosts : Nat)
    (proc₀ : List String) :
    (∀ x ∈ proc₀, x ∈ (post_batch ap hs composer poster items maxPosts proc₀).processed)
    ∧ (post_batch ap hs composer poster items maxPosts proc₀).saves
        = [flushFile (post_batch ap hs composer poster items maxPosts proc₀).processed] := by
  refine ⟨fun x hx => ?_, rfl⟩
  exact postBatchGo_proc_mono ap hs composer poster maxPosts items 0 0 proc₀ x hx

/-- C10 witness: the pre-existing fingerprint survives a concrete batch. -/
theorem post_batch_state_witness :
    "old" ∈ (["old"] : List String)
    ∧ "old" ∈ (post_batch true true (fun _ => [])
        (fun _ => PosterReply.mk true (some "1") none) [sampleB1] 5 ["old"]).processed :=
  ⟨by decide,
    (post_batch_state true true (fun _ => [])
      (fun _ => PosterReply.mk true (some "1") none) [sampleB1] 5 ["old"]).1 "old"
      (by decide)⟩

end SSA
